import Mathlib

/-!
# Graphical parametric equaliser (`eq_ui`)

A shallow embedding of `src/eq_ui/src/GraphicalParametricEQ.hpp` and of the theme
selector of `src/eq_ui/src/main.cpp`.

Modelling conventions.

* A C++ `float` is a real number: `powf`, `log10f`, `logf`, `expf`, `sinf`, `cosf` are the
  real functions they approximate, so every statement below is about exact real
  arithmetic.  The one float division whose divisor can be zero (`xNorm` in
  `drawBellCurve`) is modelled as a partial operation.
* A C++ `int` is an `Int`; the conversion `(int)bands.size()` wraps to 32 bits.
* `std::vector` is a `List`; an access `bands[i]` or `bands.erase(bands.begin() + i)`
  outside the vector has no result (`none`).
* Everything read from the GUI toolkit (mouse state, canvas origin) and every draw of
  the random generator is an input.
-/

noncomputable section

namespace EqUi

/-! ## Data model -/

/-- The toolkit's pair of floats. -/
structure ImVec2 where
  x : ℝ
  y : ℝ

/-- The toolkit's quadruple of floats. -/
structure ImVec4 where
  x : ℝ
  y : ℝ
  z : ℝ
  w : ℝ

/-- One equaliser band, `struct EqBand`. -/
structure EqBand where
  freq : ℝ
  gain : ℝ
  q : ℝ
  pos : ImVec2
  freqKHz : ℝ

structure Star where
  pos : ImVec2
  speed : ℝ
  opacity : ℝ
  twinklePhase : ℝ
  size : ℝ

structure Sword where
  pos : ImVec2
  angle : ℝ
  size : ℝ
  slashTimer : ℝ
  isSlashing : Bool
  slashSpeed : ℝ
  color : ImVec4

structure Moon where
  pos : ImVec2
  size : ℝ
  speed : ℝ
  phase : ℝ

structure Fish where
  pos : ImVec2
  speed : ℝ
  direction : ℝ
  wigglePhase : ℝ
  size : ℝ
  color : ImVec4

structure PopupText where
  pos : ImVec2
  alpha : ℝ
  time : ℝ

/-! ## Constants of `GraphicalParametricEQ` -/

def minFreq : ℝ := 20
def maxFreq : ℝ := 20000
/-- Member `minGain`; it is initialised to `-24` and never assigned. -/
def minGain : ℝ := -24
/-- Member `maxGain`; it is initialised to `24` and never assigned. -/
def maxGain : ℝ := 24
def graphSize : ImVec2 := ⟨800, 400⟩
def dotSize : ℝ := 8
def numStars : Nat := 100
def numFish : Nat := 20

/-! ## Library functions -/

/-- The function `std::clamp(v, lo, hi)`. -/
def clamp (v lo hi : ℝ) : ℝ := if v < lo then lo else if hi < v then hi else v

/-- The function `powf`; the source calls it with base `10` or with exponent `2`, where
the real power agrees with it. -/
def powf (x y : ℝ) : ℝ := x ^ y

def log10f (x : ℝ) : ℝ := Real.logb 10 x
def logf (x : ℝ) : ℝ := Real.log x
def expf (x : ℝ) : ℝ := Real.exp x
def sinf (x : ℝ) : ℝ := Real.sin x
def cosf (x : ℝ) : ℝ := Real.cos x

/-! ## Mouse position to band parameters (`Draw`, lines 261-264 and 272-276) -/

/-- The clamped horizontal canvas coordinate of the mouse. -/
def mouseX (mousePos canvasPos canvasSize : ImVec2) : ℝ :=
  clamp (mousePos.x - canvasPos.x) 10 (canvasSize.x - 10)

/-- The clamped vertical canvas coordinate of the mouse. -/
def mouseY (mousePos canvasPos canvasSize : ImVec2) : ℝ :=
  clamp (mousePos.y - canvasPos.y) 10 (canvasSize.y - 10)

/-- The frequency `Draw` computes from a clamped `x`. -/
def freqOfX (canvasSize : ImVec2) (x : ℝ) : ℝ :=
  powf 10 ((x - 10) / (canvasSize.x - 20) * log10f (maxFreq / minFreq)) * minFreq

/-- The gain `Draw` computes from a clamped `y`. -/
def gainOfY (canvasSize : ImVec2) (y : ℝ) : ℝ :=
  (canvasSize.y - y - 10) / (canvasSize.y - 20) * (maxGain - minGain) + minGain

/-! ## `updatePositions` -/

/-- The body of the loop of `updatePositions` for one band. -/
def updatePosition (b : EqBand) : EqBand :=
  let x := log10f (b.freq / minFreq) / log10f (maxFreq / minFreq) * (graphSize.x - 20) + 10
  let y := (b.gain - minGain) / (maxGain - minGain) * (graphSize.y - 20) + 10
  { b with pos := ⟨x, graphSize.y - y⟩, freqKHz := b.freq / 1000 }

/-- The function `updatePositions`: the loop visits every index once. -/
def updatePositions (bands : List EqBand) : List EqBand := bands.map updatePosition

/-! ## Theme selector (`main`, lines 57-59) -/

/-- The combo index `main` shows for a value of `selectedTheme`. -/
def uiThemeIndex (selectedTheme : Int) : Int :=
  if selectedTheme = 5 then 1 else if selectedTheme = 6 then 2
  else if selectedTheme = 7 then 3 else 0

/-- The value `main` stores into `selectedTheme` when combo entry `uiThemeIndex` is picked. -/
def themeOfIndex (uiThemeIndex : Int) : Int :=
  if uiThemeIndex = 1 then 5 else if uiThemeIndex = 2 then 6
  else if uiThemeIndex = 3 then 7 else 0

/-! ## Random generator -/

/-- The generator `rng` with its distribution `dist`: the sequence of values it will
return and how many of them were consumed. -/
structure Rng where
  draws : Nat → ℝ
  used : Nat

/-- One call `dist(rng)`. -/
def dist (rng : Rng) : ℝ × Rng := (rng.draws rng.used, { rng with used := rng.used + 1 })

/-- A counting loop `for (i = 0; i < n; ++i) xs.push_back(gen())` that draws from `rng`. -/
def pushN {α : Type} (gen : Rng → α × Rng) : Nat → List α → Rng → List α × Rng
  | 0, xs, rng => (xs, rng)
  | n + 1, xs, rng => pushN gen n (xs ++ [(gen rng).1]) (gen rng).2

/-- A loop `for (auto& x : xs)` whose body draws from `rng`. -/
def forEachRng {α : Type} (body : α → Rng → α × Rng) : List α → Rng → List α × Rng
  | [], rng => ([], rng)
  | x :: xs, rng =>
    ((body x rng).1 :: (forEachRng body xs (body x rng).2).1,
      (forEachRng body xs (body x rng).2).2)

/-! ## Widget state -/

/-- The members of `class GraphicalParametricEQ` that the modelled functions use. -/
structure GraphicalParametricEQ where
  bands : List EqBand
  lastBands : List EqBand
  draggedBandIndex : Int
  curvePoints : Int
  stars : List Star
  swords : List Sword
  moons : List Moon
  fish : List Fish
  popups : List PopupText
  rng : Rng
  currentTheme : Int
  popupTimer : ℝ

/-! ## `initializeTheme` -/

/-- The fish pushed by one round of the first loop of `initializeTheme`. -/
def newFish (rng : Rng) : Fish × Rng :=
  let d1 := dist rng
  let d2 := dist d1.2
  let d3 := dist d2.2
  let d4 := dist d3.2
  let d5 := dist d4.2
  let d6 := dist d5.2
  let d7 := dist d6.2
  let d8 := dist d7.2
  ({ pos := ⟨d1.1 * graphSize.x, d2.1 * graphSize.y⟩
     speed := 20 + d3.1 * 50
     direction := d4.1 * 2 * 3.14159
     wigglePhase := d5.1 * 2 * 3.14159
     size := 10 + d6.1 * 20
     color := ⟨0 + d7.1 * 0.2, 0.5 + d8.1 * 0.5, 1, 1⟩ }, d8.2)

/-- The star pushed by one round of the second loop of `initializeTheme`. -/
def newStar (rng : Rng) : Star × Rng :=
  let d1 := dist rng
  let d2 := dist d1.2
  let d3 := dist d2.2
  let d4 := dist d3.2
  let d5 := dist d4.2
  let d6 := dist d5.2
  ({ pos := ⟨d1.1 * graphSize.x, d2.1 * graphSize.y⟩
     speed := 0.5 + d3.1 * 2
     opacity := 0.5 + d4.1 * 0.5
     twinklePhase := d5.1 * 2 * 3.14159
     size := 2 + d6.1 * 3 }, d6.2)

/-- The moon pushed by one round of the third loop of `initializeTheme`. -/
def newMoon (rng : Rng) : Moon × Rng :=
  let d1 := dist rng
  let d2 := dist d1.2
  let d3 := dist d2.2
  let d4 := dist d3.2
  let d5 := dist d4.2
  ({ pos := ⟨d1.1 * graphSize.x, -50 - d2.1 * 100⟩
     size := 20 + d3.1 * 30
     speed := 20 + d4.1 * 30
     phase := d5.1 * 2 * 3.14159 }, d5.2)

/-- The function `initializeTheme`; `seeded` is the generator obtained from
`std::random_device`, `selectedTheme` the global of that name. -/
def initializeTheme (selectedTheme : Int) (seeded : Rng) (s : GraphicalParametricEQ) :
    GraphicalParametricEQ :=
  let s := { s with rng := seeded, stars := [], swords := [], moons := [], fish := [],
                    popups := [] }
  if selectedTheme = 5 then
    let r := pushN newFish numFish s.fish s.rng
    { s with fish := r.1, rng := r.2 }
  else if selectedTheme = 6 ∨ selectedTheme = 7 then
    s
  else
    let r := pushN newStar numStars s.stars s.rng
    let m := pushN newMoon 3 s.moons r.2
    { s with stars := r.1, moons := m.1, rng := m.2 }

/-! ## `updateTheme` -/

/-- The body of the fish loop of `updateTheme`. -/
def updateFish (deltaTime : ℝ) (f : Fish) : Fish :=
  let wigglePhase := f.wigglePhase + deltaTime * 5
  let wiggle := sinf wigglePhase * 0.1
  let direction := f.direction + wiggle * deltaTime
  let px := f.pos.x + f.speed * cosf direction * deltaTime
  let py := f.pos.y + f.speed * sinf direction * deltaTime
  let hitX : Prop := px < -f.size ∨ px > graphSize.x + f.size
  let direction1 := if hitX then 3.14159 - direction else direction
  let px1 := if hitX then clamp px 0 graphSize.x else px
  let hitY : Prop := py < -f.size ∨ py > graphSize.y + f.size
  let direction2 := if hitY then -direction1 else direction1
  let py1 := if hitY then clamp py 0 graphSize.y else py
  { f with wigglePhase := wigglePhase, direction := direction2, pos := ⟨px1, py1⟩ }

/-- The body of the popup loop of `updateTheme` up to the test: the aged popup. -/
def agePopup (deltaTime : ℝ) (p : PopupText) : PopupText :=
  let time := p.time + deltaTime
  { p with time := time, alpha := 1 - time / 1 }

/-- The popup loop of `updateTheme`: every popup is aged, and erased when its time
exceeds one. -/
def agePopups (deltaTime : ℝ) : List PopupText → List PopupText
  | [] => []
  | p :: ps =>
    if (agePopup deltaTime p).time > 1 then agePopups deltaTime ps
    else agePopup deltaTime p :: agePopups deltaTime ps

/-- The body of the star loop of `updateTheme`. -/
def updateStar (deltaTime : ℝ) (star : Star) (rng : Rng) : Star × Rng :=
  let y := star.pos.y + star.speed * deltaTime * 50
  let d1 := dist rng
  let d2 := dist d1.2
  let d3 := dist d2.2
  let d4 := dist d3.2
  let wrapped : Star × Rng :=
    if y > graphSize.y then
      ({ star with pos := ⟨d1.1 * graphSize.x, y - graphSize.y⟩
                   opacity := 0.5 + d2.1 * 0.5
                   twinklePhase := d3.1 * 2 * 3.14159
                   size := 2 + d4.1 * 3 }, d4.2)
    else ({ star with pos := ⟨star.pos.x, y⟩ }, rng)
  let twinklePhase := wrapped.1.twinklePhase + deltaTime * 2
  ({ wrapped.1 with twinklePhase := twinklePhase, opacity := 0.5 + 0.5 * sinf twinklePhase },
    wrapped.2)

/-- The body of the moon loop of `updateTheme`. -/
def updateMoon (deltaTime : ℝ) (moon : Moon) (rng : Rng) : Moon × Rng :=
  let y := moon.pos.y + moon.speed * deltaTime * 20
  let phase := moon.phase + deltaTime * 0.5
  let d1 := dist rng
  let d2 := dist d1.2
  if y > graphSize.y + moon.size * 2 then
    ({ moon with pos := ⟨d1.1 * graphSize.x, -moon.size⟩, phase := phase,
                 speed := 20 + d2.1 * 30 }, d2.2)
  else ({ moon with pos := ⟨moon.pos.x, y⟩, phase := phase }, rng)

/-- The function `updateTheme`. -/
def updateTheme (selectedTheme : Int) (deltaTime : ℝ) (s : GraphicalParametricEQ) :
    GraphicalParametricEQ :=
  if selectedTheme = 5 then
    { s with fish := s.fish.map (updateFish deltaTime) }
  else if selectedTheme = 6 ∨ selectedTheme = 7 then
    let popupTimer := s.popupTimer + deltaTime
    let d1 := dist s.rng
    let d2 := dist d1.2
    let s1 : GraphicalParametricEQ :=
      if popupTimer ≥ 1 then
        { s with popups := s.popups ++ [⟨⟨d1.1 * graphSize.x, d2.1 * graphSize.y⟩, 1, 0⟩]
                 rng := d2.2
                 popupTimer := popupTimer - 1 }
      else { s with popupTimer := popupTimer }
    { s1 with popups := agePopups deltaTime s1.popups }
  else
    let r := forEachRng (updateStar deltaTime) s.stars s.rng
    let m := forEachRng (updateMoon deltaTime) s.moons r.2
    { s with stars := r.1, moons := m.1, rng := m.2 }

/-- A run of `updateTheme` calls, each with the theme selected and the time elapsed at
that call. -/
def updateThemeMany : List (Int × ℝ) → GraphicalParametricEQ → GraphicalParametricEQ
  | [], s => s
  | c :: cs, s => updateThemeMany cs (updateTheme c.1 c.2 s)

/-- Lines 220-221 of `Draw`: the theme is initialised when the selection changed, then
updated. -/
def themeStep (selectedTheme : Int) (seeded : Rng) (deltaTime : ℝ)
    (s : GraphicalParametricEQ) : GraphicalParametricEQ :=
  updateTheme selectedTheme deltaTime
    (if s.currentTheme ≠ selectedTheme then
      initializeTheme selectedTheme seeded { s with currentTheme := selectedTheme }
    else s)

/-! ## `drawPopups` -/

/-- The conversion `(int)` of a float: truncation towards zero. -/
def intOfFloat (r : ℝ) : Int := if 0 ≤ r then ⌊r⌋ else ⌈r⌉

/-- The alpha argument `(int)(p.alpha * 255)` that `drawPopups` passes to `IM_COL32`. -/
def popupAlphaByte (p : PopupText) : Int := intOfFloat (p.alpha * 255)

/-- The function `drawPopups`: position, alpha argument and text of every `AddText`. -/
def drawPopups (selectedTheme : Int) (canvasPos : ImVec2) (popups : List PopupText) :
    List (ImVec2 × Int × String) :=
  popups.map fun p =>
    (⟨canvasPos.x + p.pos.x, canvasPos.y + p.pos.y⟩, popupAlphaByte p,
      if selectedTheme = 6 then "Blasphemy" else "JJ")

/-! ## `drawBellCurve` -/

/-- The quotient `i / (float)(curvePoints - 1)`; for a zero divisor the float
quotient `0 / 0` is not a number. -/
def xNormAt (curvePoints : Int) (i : Nat) : Option ℝ :=
  if ((curvePoints - 1 : Int) : ℝ) = 0 then none
  else some ((i : ℝ) / ((curvePoints - 1 : Int) : ℝ))

/-- The sampled frequency `freqOffset` of `drawBellCurve`. -/
def freqOffset (xNorm : ℝ) : ℝ := powf 10 (xNorm * log10f (maxFreq / minFreq)) * minFreq

/-- The value `gainOffset` of `drawBellCurve` at frequency `f`, for the clamped `q`. -/
def gainOffset (band : EqBand) (q f : ℝ) : ℝ :=
  band.gain * expf (-0.5 * powf (logf (f / band.freq) / (q * 0.1)) 2)

/-- The bell curve of a band as a function of the frequency. -/
def bellGain (band : EqBand) (f : ℝ) : ℝ := gainOffset band (clamp band.q 0.1 10) f

/-- The polyline point `drawBellCurve` computes from `xNorm`. -/
def bellPoint (canvasPos : ImVec2) (band : EqBand) (xNorm : ℝ) : ImVec2 :=
  let yNorm := (bellGain band (freqOffset xNorm) - minGain) / (maxGain - minGain)
  ⟨canvasPos.x + xNorm * (graphSize.x - 20) + 10,
    canvasPos.y + (graphSize.y - 20) * (1 - clamp yNorm 0 1) + 10⟩

/-- The function `drawBellCurve`: the points handed to `AddPolyline`, none at all when the
guard returns early.  A point is `none` when its coordinates are not numbers. -/
def drawBellCurve (drawListNull : Bool) (curvePoints : Int) (canvasPos : ImVec2)
    (band : EqBand) : List (Option ImVec2) :=
  if curvePoints ≤ 0 ∨ drawListNull = true then []
  else (List.range curvePoints.toNat).map fun i =>
    (xNormAt curvePoints i).map (bellPoint canvasPos band)

/-! ## Mouse handling of `Draw` (lines 253-280) -/

/-- What `Draw` reads from the toolkit in one frame. -/
structure MouseInput where
  itemHovered : Bool
  hoveringRect : ImVec2 → ImVec2 → Bool
  clicked0 : Bool
  clicked1 : Bool
  dragging0 : Bool
  released0 : Bool
  mousePos : ImVec2
  canvasPos : ImVec2

/-- The conversion `(int)` of a `size_t`: reduction to 32 bits, two's complement. -/
def intOfSize (n : Nat) : Int :=
  if (n : Int) % 4294967296 < 2147483648 then (n : Int) % 4294967296
  else (n : Int) % 4294967296 - 4294967296

/-- The writes `bands[i].field = ...` collected in `f`; no result outside the vector. -/
def modifyAt (bands : List EqBand) (i : Int) (f : EqBand → EqBand) : Option (List EqBand) :=
  if 0 ≤ i ∧ i.toNat < bands.length then some (bands.modify f i.toNat) else none

/-- The call `bands.erase(bands.begin() + i)`; no result outside the vector. -/
def eraseAt (bands : List EqBand) (i : Int) : Option (List EqBand) :=
  if 0 ≤ i ∧ i.toNat < bands.length then some (bands.eraseIdx i.toNat) else none

/-- The loop of lines 254-259: a left click on a dot selects its band. -/
def selectStep (inp : MouseInput) (s : GraphicalParametricEQ) : GraphicalParametricEQ :=
  { s with draggedBandIndex :=
      s.bands.enum.foldl (fun d ib =>
        let dotPos : ImVec2 := ⟨inp.canvasPos.x + ib.2.pos.x, inp.canvasPos.y + ib.2.pos.y⟩
        if inp.hoveringRect ⟨dotPos.x - dotSize, dotPos.y - dotSize⟩
            ⟨dotPos.x + dotSize, dotPos.y + dotSize⟩ = true ∧ inp.clicked0 = true
        then intOfSize ib.1 else d) s.draggedBandIndex }

/-- The band pushed by line 265. -/
def addedBand (inp : MouseInput) : EqBand :=
  let x := mouseX inp.mousePos inp.canvasPos graphSize
  let y := mouseY inp.mousePos inp.canvasPos graphSize
  let freq := freqOfX graphSize x
  let gain := gainOfY graphSize y
  ⟨freq, gain, 1, ⟨x, y⟩, freq / 1000⟩

/-- Lines 260-267: a right click with no band selected adds a band under the mouse. -/
def addStep (inp : MouseInput) (s : GraphicalParametricEQ) : GraphicalParametricEQ :=
  if inp.clicked1 = true ∧ s.draggedBandIndex = -1 then
    { s with bands := updatePositions (s.bands ++ [addedBand inp]) }
  else s

/-- The four assignments of lines 274-277 to the dragged band. -/
def dragBand (inp : MouseInput) (b : EqBand) : EqBand :=
  let x := mouseX inp.mousePos inp.canvasPos graphSize
  let y := mouseY inp.mousePos inp.canvasPos graphSize
  let b1 := { b with pos := ⟨x, y⟩ }
  let b2 := { b1 with freq := freqOfX graphSize x }
  let b3 := { b2 with gain := gainOfY graphSize y }
  { b3 with freqKHz := b3.freq / 1000 }

/-- Lines 270-278, the drag step. -/
def dragStep (inp : MouseInput) (s : GraphicalParametricEQ) : Option GraphicalParametricEQ :=
  if s.draggedBandIndex ≥ 0 ∧ s.draggedBandIndex < intOfSize s.bands.length
      ∧ inp.dragging0 = true then
    (modifyAt s.bands s.draggedBandIndex (dragBand inp)).map fun bs => { s with bands := bs }
  else some s

/-- Line 279: releasing the left button ends the drag. -/
def releaseStep (inp : MouseInput) (s : GraphicalParametricEQ) : GraphicalParametricEQ :=
  if inp.released0 = true then { s with draggedBandIndex := -1 } else s

/-- Line 280, the right-click-delete step. -/
def deleteStep (inp : MouseInput) (s : GraphicalParametricEQ) : Option GraphicalParametricEQ :=
  if s.draggedBandIndex ≥ 0 ∧ s.draggedBandIndex < intOfSize s.bands.length
      ∧ inp.clicked1 = true then
    (eraseAt s.bands s.draggedBandIndex).map fun bs =>
      { s with bands := updatePositions bs, draggedBandIndex := -1 }
  else some s

/-- Lines 270-280 in sequence: drag step, release, right-click-delete step. -/
def dragReleaseDelete (inp : MouseInput) (s : GraphicalParametricEQ) :
    Option GraphicalParametricEQ :=
  (dragStep inp s).bind fun s1 => deleteStep inp (releaseStep inp s1)

/-- Lines 253-280: the mouse handling of one frame. -/
def mouseSteps (inp : MouseInput) (s : GraphicalParametricEQ) : Option GraphicalParametricEQ :=
  dragReleaseDelete inp (if inp.itemHovered = true then addStep inp (selectStep inp s) else s)

/-- The triple `operator==` of `EqBand` compares. -/
def EqBand.key (b : EqBand) : ℝ × ℝ × ℝ := (b.freq, b.gain, b.q)

/-! ## The log-frequency axis -/

theorem log10f_ratio : log10f (maxFreq / minFreq) = 3 := by
  have h : maxFreq / minFreq = (10 : ℝ) ^ (3 : ℝ) := by
    simp only [maxFreq, minFreq]; norm_num
  rw [h, log10f, Real.logb_rpow (by norm_num) (by norm_num)]

theorem clamp_ge (v lo hi : ℝ) (h : lo ≤ hi) : lo ≤ clamp v lo hi := by
  unfold clamp; split_ifs with h1 h2 <;> linarith

theorem clamp_le (v lo hi : ℝ) (h : lo ≤ hi) : clamp v lo hi ≤ hi := by
  unfold clamp; split_ifs with h1 h2 <;> linarith

theorem clamp_id (v lo hi : ℝ) (h1 : lo ≤ v) (h2 : v ≤ hi) : clamp v lo hi = v := by
  unfold clamp; rw [if_neg (not_lt.mpr h1), if_neg (not_lt.mpr h2)]

theorem freqOfX_eq (x : ℝ) : freqOfX graphSize x = (10 : ℝ) ^ ((x - 10) / 260) * 20 := by
  unfold freqOfX
  rw [log10f_ratio]
  simp only [powf, graphSize, minFreq]
  congr 2; ring

theorem freqOfX_lower (x : ℝ) (h : 10 ≤ x) : 20 ≤ freqOfX graphSize x := by
  rw [freqOfX_eq]
  have h1 : (1 : ℝ) ≤ (10 : ℝ) ^ ((x - 10) / 260) :=
    Real.one_le_rpow (by norm_num) (by apply div_nonneg <;> linarith)
  linarith

theorem freqOfX_upper (x : ℝ) (h : x ≤ 790) : freqOfX graphSize x ≤ 20000 := by
  rw [freqOfX_eq]
  have h1 : (10 : ℝ) ^ ((x - 10) / 260) ≤ (10 : ℝ) ^ (3 : ℝ) :=
    Real.rpow_le_rpow_of_exponent_le (by norm_num) (by linarith)
  have h2 : (10 : ℝ) ^ (3 : ℝ) = 1000 := by norm_num
  linarith

theorem freqOfX_left : freqOfX graphSize 10 = 20 := by
  rw [freqOfX_eq]; norm_num

theorem freqOfX_right : freqOfX graphSize 790 = 20000 := by
  rw [freqOfX_eq]; norm_num

theorem gainOfY_eq (y : ℝ) : gainOfY graphSize y = (390 - y) / 380 * 48 - 24 := by
  simp only [gainOfY, graphSize, maxGain, minGain]; ring

theorem mouseX_range (mousePos canvasPos : ImVec2) :
    10 ≤ mouseX mousePos canvasPos graphSize ∧ mouseX mousePos canvasPos graphSize ≤ 790 := by
  have h : graphSize.x - 10 = 790 := by simp only [graphSize]; norm_num
  unfold mouseX; rw [h]
  exact ⟨clamp_ge _ _ _ (by norm_num), clamp_le _ _ _ (by norm_num)⟩

theorem mouseY_range (mousePos canvasPos : ImVec2) :
    10 ≤ mouseY mousePos canvasPos graphSize ∧ mouseY mousePos canvasPos graphSize ≤ 390 := by
  have h : graphSize.y - 10 = 390 := by simp only [graphSize]; norm_num
  unfold mouseY; rw [h]
  exact ⟨clamp_ge _ _ _ (by norm_num), clamp_le _ _ _ (by norm_num)⟩

theorem mouseX_at (canvasPos : ImVec2) (x my : ℝ) (h1 : 10 ≤ x) (h2 : x ≤ 790) :
    mouseX ⟨canvasPos.x + x, my⟩ canvasPos graphSize = x := by
  have h : graphSize.x - 10 = 790 := by simp only [graphSize]; norm_num
  unfold mouseX; rw [h]
  simp only [add_sub_cancel_left]
  exact clamp_id _ _ _ h1 h2

theorem mouseY_at (canvasPos : ImVec2) (mx y : ℝ) (h1 : 10 ≤ y) (h2 : y ≤ 390) :
    mouseY ⟨mx, canvasPos.y + y⟩ canvasPos graphSize = y := by
  have h : graphSize.y - 10 = 390 := by simp only [graphSize]; norm_num
  unfold mouseY; rw [h]
  simp only [add_sub_cancel_left]
  exact clamp_id _ _ _ h1 h2

/-! ## Claims on the mouse mapping -/

/-- C1: for every mouse position and canvas origin, the frequency `Draw` computes from
the clamped horizontal coordinate lies in `[20, 20000]` and the gain it computes from the
clamped vertical coordinate lies in `[-24, 24]`; a mouse 10 to the right of the canvas
origin gives exactly 20 Hz, one 790 to the right exactly 20000 Hz, one 10 below the origin
gives +24 dB and one 390 below gives -24 dB. -/
theorem mouse_mapping_range (mousePos canvasPos : ImVec2) :
    (20 ≤ freqOfX graphSize (mouseX mousePos canvasPos graphSize)
      ∧ freqOfX graphSize (mouseX mousePos canvasPos graphSize) ≤ 20000)
    ∧ (-24 ≤ gainOfY graphSize (mouseY mousePos canvasPos graphSize)
      ∧ gainOfY graphSize (mouseY mousePos canvasPos graphSize) ≤ 24)
    ∧ freqOfX graphSize (mouseX ⟨canvasPos.x + 10, mousePos.y⟩ canvasPos graphSize) = 20
    ∧ freqOfX graphSize (mouseX ⟨canvasPos.x + 790, mousePos.y⟩ canvasPos graphSize) = 20000
    ∧ gainOfY graphSize (mouseY ⟨mousePos.x, canvasPos.y + 10⟩ canvasPos graphSize) = 24
    ∧ gainOfY graphSize (mouseY ⟨mousePos.x, canvasPos.y + 390⟩ canvasPos graphSize) = -24 := by
  obtain ⟨hx1, hx2⟩ := mouseX_range mousePos canvasPos
  obtain ⟨hy1, hy2⟩ := mouseY_range mousePos canvasPos
  refine ⟨⟨freqOfX_lower _ hx1, freqOfX_upper _ hx2⟩, ⟨?_, ?_⟩, ?_, ?_, ?_, ?_⟩
  · rw [gainOfY_eq]
    have : (390 - mouseY mousePos canvasPos graphSize) / 380 * 48 ≥ 0 := by
      apply mul_nonneg (div_nonneg (by linarith) (by norm_num)) (by norm_num)
    linarith
  · rw [gainOfY_eq]
    have : (390 - mouseY mousePos canvasPos graphSize) / 380 ≤ 1 := by
      rw [div_le_one (by norm_num)]; linarith
    linarith
  · rw [mouseX_at _ _ _ (le_refl _) (by norm_num)]; exact freqOfX_left
  · rw [mouseX_at _ _ _ (by norm_num) (le_refl _)]; exact freqOfX_right
  · rw [mouseY_at _ _ _ (le_refl _) (by norm_num), gainOfY_eq]; norm_num
  · rw [mouseY_at _ _ _ (by norm_num) (le_refl _), gainOfY_eq]; norm_num

/-! ## Claims on `updatePositions` -/

theorem updatePosition_x (b : EqBand) :
    (updatePosition b).pos.x = 10 + 780 * log10f (b.freq / 20) / log10f 1000 := by
  have h : log10f 1000 = 3 := by
    have := log10f_ratio; simp only [maxFreq, minFreq] at this; norm_num at this; exact this
  simp only [updatePosition, log10f_ratio]
  simp only [h, graphSize, minFreq]
  ring

theorem updatePosition_y (b : EqBand) :
    (updatePosition b).pos.y = 400 - (10 + 380 * (b.gain + 24) / 48) := by
  simp only [updatePosition, graphSize, minGain, maxGain]
  ring

theorem log10f_mul (k f : ℝ) (hk : 0 < k) (hf : 0 < f) :
    log10f (k * f / 20) = log10f k + log10f (f / 20) := by
  unfold log10f
  rw [mul_div_assoc, Real.logb_mul hk.ne' (by positivity)]

theorem log10f_range (f : ℝ) (h1 : 20 ≤ f) (h2 : f ≤ 20000) :
    0 ≤ log10f (f / 20) ∧ log10f (f / 20) ≤ 3 := by
  unfold log10f
  constructor
  · apply Real.logb_nonneg (by norm_num)
    rw [le_div_iff₀ (by norm_num)]; linarith
  · rw [Real.logb_le_iff_le_rpow (by norm_num) (by positivity)]
    have : (10 : ℝ) ^ (3 : ℝ) = 1000 := by norm_num
    rw [this, div_le_iff₀ (by norm_num)]; linarith

/-- C2: `updatePositions` keeps the number of bands and gives the band at every index
the position of its own `freq` and `gain`, leaving `freq`, `gain` and `q` alone: for
`freq > 0`, `pos.x = 10 + 780 * log10(freq/20) / log10(1000)`, which is 10 at 20 Hz and 790
at 20000 Hz, and `pos.y = 400 - (10 + 380 * (gain + 24)/48)`; for `freq` in `[20, 20000]` and
`gain` in `[-24, 24]` the position lies in `[10, 790] x [10, 390]`; and for every ratio
`k > 0` the horizontal distance between the positions of `k * f` and `f` is the same for
all `f > 0`. -/
theorem updatePositions_log_axis (bands : List EqBand) :
    (updatePositions bands).length = bands.length
    ∧ (∀ (i : Nat) (b : EqBand), bands[i]? = some b →
        (updatePositions bands)[i]? = some (updatePosition b)
        ∧ (updatePosition b).freq = b.freq ∧ (updatePosition b).gain = b.gain
        ∧ (updatePosition b).q = b.q
        ∧ (0 < b.freq →
            (updatePosition b).pos.x = 10 + 780 * log10f (b.freq / 20) / log10f 1000)
        ∧ (b.freq = 20 → (updatePosition b).pos.x = 10)
        ∧ (b.freq = 20000 → (updatePosition b).pos.x = 790)
        ∧ (updatePosition b).pos.y = 400 - (10 + 380 * (b.gain + 24) / 48)
        ∧ (20 ≤ b.freq → b.freq ≤ 20000 → -24 ≤ b.gain → b.gain ≤ 24 →
            (10 ≤ (updatePosition b).pos.x ∧ (updatePosition b).pos.x ≤ 790)
            ∧ (10 ≤ (updatePosition b).pos.y ∧ (updatePosition b).pos.y ≤ 390)))
    ∧ (∀ (k f g : ℝ) (b c : EqBand), 0 < k → 0 < f → 0 < g →
        (updatePosition { b with freq := k * f }).pos.x - (updatePosition { b with freq := f }).pos.x
          = (updatePosition { c with freq := k * g }).pos.x
            - (updatePosition { c with freq := g }).pos.x) := by
  have h3 : log10f 1000 = 3 := by
    have := log10f_ratio; simp only [maxFreq, minFreq] at this; norm_num at this; exact this
  refine ⟨by simp [updatePositions], ?_, ?_⟩
  · intro i b hb
    refine ⟨by simp [updatePositions, hb], rfl, rfl, rfl, fun _ => updatePosition_x b, ?_, ?_,
      updatePosition_y b, ?_⟩
    · intro h
      rw [updatePosition_x, h]
      simp [log10f]
    · intro h
      rw [updatePosition_x, h, h3]
      have : (20000 : ℝ) / 20 = 1000 := by norm_num
      rw [this, h3]; norm_num
    · intro h1 h2 h4 h5
      obtain ⟨l1, l2⟩ := log10f_range b.freq h1 h2
      rw [updatePosition_x, updatePosition_y, h3]
      refine ⟨⟨?_, ?_⟩, ?_, ?_⟩ <;> linarith
  · intro k f g b c hk hf hg
    simp only [updatePosition_x, log10f_mul k f hk hf, log10f_mul k g hk hg]
    ring

/-- C2 at a concrete band: the 20 Hz, 0 dB band is placed at `(10, 200)`. -/
theorem updatePositions_log_axis_witness :
    (updatePosition ⟨20, 0, 1, ⟨0, 0⟩, 1⟩).pos.x = 10
    ∧ ((10 ≤ (updatePosition ⟨20, 0, 1, ⟨0, 0⟩, 1⟩).pos.x
        ∧ (updatePosition ⟨20, 0, 1, ⟨0, 0⟩, 1⟩).pos.x ≤ 790)
      ∧ (10 ≤ (updatePosition ⟨20, 0, 1, ⟨0, 0⟩, 1⟩).pos.y
        ∧ (updatePosition ⟨20, 0, 1, ⟨0, 0⟩, 1⟩).pos.y ≤ 390))
    ∧ (updatePosition ⟨2 * 100, 0, 1, ⟨0, 0⟩, 1⟩).pos.x
        - (updatePosition ⟨100, 0, 1, ⟨0, 0⟩, 1⟩).pos.x
      = (updatePosition ⟨2 * 500, 0, 1, ⟨0, 0⟩, 1⟩).pos.x
        - (updatePosition ⟨500, 0, 1, ⟨0, 0⟩, 1⟩).pos.x :=
  have h := updatePositions_log_axis [⟨20, 0, 1, ⟨0, 0⟩, 1⟩]
  have hb := h.2.1 0 ⟨20, 0, 1, ⟨0, 0⟩, 1⟩ rfl
  ⟨hb.2.2.2.2.2.1 rfl,
    hb.2.2.2.2.2.2.2.2 (by norm_num) (by norm_num) (by norm_num) (by norm_num),
    h.2.2 2 100 500 ⟨0, 0, 1, ⟨0, 0⟩, 1⟩ ⟨0, 0, 1, ⟨0, 0⟩, 1⟩ (by norm_num) (by norm_num)
      (by norm_num)⟩

theorem log10f_freqOfX (x : ℝ) : log10f (freqOfX graphSize x / minFreq) = (x - 10) / 260 := by
  rw [freqOfX_eq]
  simp only [minFreq]
  rw [mul_div_assoc, div_self (by norm_num), mul_one, log10f,
    Real.logb_rpow (by norm_num) (by norm_num)]

theorem updatePosition_of_mouse (b : EqBand) (x y : ℝ)
    (hf : b.freq = freqOfX graphSize x) (hg : b.gain = gainOfY graphSize y) :
    (updatePosition b).pos = ⟨x, y⟩ := by
  simp only [updatePosition, hf, hg, log10f_freqOfX, log10f_ratio, gainOfY_eq]
  simp only [graphSize, minGain, maxGain]
  congr 1 <;> ring

/-- C8: for every canvas position `(x, y)` with `x` in `[10, 790]` and `y` in `[10, 390]`
under the mouse, the band `Draw` builds on a right click and the band it rewrites on a
drag carry `freq = freqOfX x`, `gain = gainOfY y` and `pos = (x, y)`; and `updatePositions`
recomputes the position `(x, y)` from that `freq` and `gain` alone: whatever position, `q`
and `freqKHz` a band with these two values holds before, it holds `pos = (x, y)` after. -/
theorem position_round_trip (inp : MouseInput) (x y : ℝ) (b : EqBand)
    (hx1 : 10 ≤ x) (hx2 : x ≤ 790) (hy1 : 10 ≤ y) (hy2 : y ≤ 390)
    (hmx : inp.mousePos.x - inp.canvasPos.x = x)
    (hmy : inp.mousePos.y - inp.canvasPos.y = y) :
    (addedBand inp).pos = ⟨x, y⟩ ∧ (updatePosition (addedBand inp)).pos = ⟨x, y⟩
    ∧ (dragBand inp b).pos = ⟨x, y⟩ ∧ (updatePosition (dragBand inp b)).pos = ⟨x, y⟩
    ∧ updatePositions [addedBand inp, dragBand inp b] = [addedBand inp, dragBand inp b]
    ∧ ((addedBand inp).freq = freqOfX graphSize x ∧ (addedBand inp).gain = gainOfY graphSize y)
    ∧ ((dragBand inp b).freq = freqOfX graphSize x
        ∧ (dragBand inp b).gain = gainOfY graphSize y)
    ∧ (∀ (q k : ℝ) (p : ImVec2),
        updatePositions [⟨freqOfX graphSize x, gainOfY graphSize y, q, p, k⟩]
          = [⟨freqOfX graphSize x, gainOfY graphSize y, q, ⟨x, y⟩,
              freqOfX graphSize x / 1000⟩])
    ∧ (∀ c : EqBand, c.freq = (addedBand inp).freq → c.gain = (addedBand inp).gain →
        (updatePosition c).pos = ⟨x, y⟩)
    ∧ (∀ c : EqBand, c.freq = (dragBand inp b).freq → c.gain = (dragBand inp b).gain →
        (updatePosition c).pos = ⟨x, y⟩) := by
  have h790 : graphSize.x - 10 = 790 := by simp only [graphSize]; norm_num
  have h390 : graphSize.y - 10 = 390 := by simp only [graphSize]; norm_num
  have mx : mouseX inp.mousePos inp.canvasPos graphSize = x := by
    unfold mouseX; rw [hmx, h790]; exact clamp_id _ _ _ hx1 hx2
  have my : mouseY inp.mousePos inp.canvasPos graphSize = y := by
    unfold mouseY; rw [hmy, h390]; exact clamp_id _ _ _ hy1 hy2
  have af : (addedBand inp).freq = freqOfX graphSize x := by simp only [addedBand, mx]
  have ag : (addedBand inp).gain = gainOfY graphSize y := by simp only [addedBand, my]
  have df : (dragBand inp b).freq = freqOfX graphSize x := by simp only [dragBand, mx]
  have dg : (dragBand inp b).gain = gainOfY graphSize y := by simp only [dragBand, my]
  have a1 : (addedBand inp).pos = ⟨x, y⟩ := by simp only [addedBand, mx, my]
  have a2 : (updatePosition (addedBand inp)).pos = ⟨x, y⟩ :=
    updatePosition_of_mouse _ x y af ag
  have d1 : (dragBand inp b).pos = ⟨x, y⟩ := by simp only [dragBand, mx, my]
  have d2 : (updatePosition (dragBand inp b)).pos = ⟨x, y⟩ :=
    updatePosition_of_mouse _ x y df dg
  have fixed : ∀ c : EqBand, (updatePosition c).pos = c.pos → c.freqKHz = c.freq / 1000 →
      updatePosition c = c := by
    intro c hp hk
    have e : updatePosition c = { c with pos := (updatePosition c).pos,
                                         freqKHz := c.freq / 1000 } := rfl
    rw [e, hp, ← hk]
  refine ⟨a1, a2, d1, d2, ?_, ⟨af, ag⟩, ⟨df, dg⟩, ?_, ?_, ?_⟩
  · simp only [updatePositions, List.map_cons, List.map_nil]
    rw [fixed _ (a2.trans a1.symm) rfl, fixed _ (d2.trans d1.symm) rfl]
  · intro q k p
    have hp : (updatePosition ⟨freqOfX graphSize x, gainOfY graphSize y, q, p, k⟩).pos
        = ⟨x, y⟩ := updatePosition_of_mouse _ x y rfl rfl
    have e : updatePosition ⟨freqOfX graphSize x, gainOfY graphSize y, q, p, k⟩
        = ⟨freqOfX graphSize x, gainOfY graphSize y, q,
            (updatePosition ⟨freqOfX graphSize x, gainOfY graphSize y, q, p, k⟩).pos,
            freqOfX graphSize x / 1000⟩ := rfl
    simp only [updatePositions, List.map_cons, List.map_nil]
    rw [e, hp]
  · intro c hf hg
    exact updatePosition_of_mouse c x y (hf.trans af) (hg.trans ag)
  · intro c hf hg
    exact updatePosition_of_mouse c x y (hf.trans df) (hg.trans dg)

/-- C8 at a concrete input, the mouse at `(100, 200)` on a canvas at the origin: a band
that holds the mapped `freq` and `gain` but the stale position `(0, 0)` is moved to
`(100, 200)`, and so is a copy of the dragged band whose position was reset. -/
theorem position_round_trip_witness :
    updatePositions [⟨freqOfX graphSize 100, gainOfY graphSize 200, 1, ⟨0, 0⟩, 0⟩]
      = [⟨freqOfX graphSize 100, gainOfY graphSize 200, 1, ⟨100, 200⟩,
          freqOfX graphSize 100 / 1000⟩]
    ∧ (updatePosition
        ⟨(dragBand ⟨true, fun _ _ => false, false, true, false, false, ⟨100, 200⟩, ⟨0, 0⟩⟩
            ⟨1000, 0, 1, ⟨0, 0⟩, 1⟩).freq,
          (dragBand ⟨true, fun _ _ => false, false, true, false, false, ⟨100, 200⟩, ⟨0, 0⟩⟩
            ⟨1000, 0, 1, ⟨0, 0⟩, 1⟩).gain, 1, ⟨0, 0⟩, 0⟩).pos = ⟨100, 200⟩
    ∧ (updatePosition (addedBand ⟨true, fun _ _ => false, false, true, false, false,
        ⟨100, 200⟩, ⟨0, 0⟩⟩)).pos = ⟨100, 200⟩ :=
  have h := position_round_trip ⟨true, fun _ _ => false, false, true, false, false,
    ⟨100, 200⟩, ⟨0, 0⟩⟩ 100 200 ⟨1000, 0, 1, ⟨0, 0⟩, 1⟩ (by norm_num) (by norm_num)
    (by norm_num) (by norm_num) (by norm_num) (by norm_num)
  ⟨h.2.2.2.2.2.2.2.1 1 0 ⟨0, 0⟩, h.2.2.2.2.2.2.2.2.2 _ rfl rfl, h.2.1⟩

/-! ## Claims on the bell curve -/

theorem bellGain_eq (band : EqBand) (f : ℝ) :
    bellGain band f
      = band.gain * Real.exp (-0.5 * (Real.log (f / band.freq)
          / (clamp band.q 0.1 10 * 0.1)) ^ 2) := by
  simp only [bellGain, gainOffset, expf, powf, logf, Real.rpow_two]

theorem bell_factor_le_one (t : ℝ) : Real.exp (-0.5 * t ^ 2) ≤ 1 := by
  rw [Real.exp_le_one_iff]
  have := sq_nonneg t
  linarith

/-- C3: for every band with `freq > 0`, every `f > 0` and every `k > 0`, the bell curve
`g(f) = gain * exp(-0.5 * (ln(f / freq) / (0.1 * clamp(q, 0.1, 10)))^2)` that
`drawBellCurve` evaluates satisfies `g(freq) = gain`, `|g(f)| <= |gain|`, `g(f)` has the sign
of `gain`, and `g(freq * k) = g(freq / k)`. -/
theorem bell_curve_gaussian (band : EqBand) (f k : ℝ) (hfreq : 0 < band.freq) (_hf : 0 < f)
    (hk : 0 < k) :
    bellGain band f
      = band.gain * expf (-0.5 * powf (logf (f / band.freq) / (0.1 * clamp band.q 0.1 10)) 2)
    ∧ bellGain band band.freq = band.gain
    ∧ |bellGain band f| ≤ |band.gain|
    ∧ SignType.sign (bellGain band f) = SignType.sign band.gain
    ∧ bellGain band (band.freq * k) = bellGain band (band.freq / k) := by
  refine ⟨?_, ?_, ?_, ?_, ?_⟩
  · simp only [bellGain, gainOffset, mul_comm (0.1 : ℝ)]
  · rw [bellGain_eq, div_self hfreq.ne']
    simp
  · rw [bellGain_eq, abs_mul, abs_of_pos (Real.exp_pos _)]
    exact mul_le_of_le_one_right (abs_nonneg _) (bell_factor_le_one _)
  · rw [bellGain_eq, sign_mul, sign_pos (Real.exp_pos _), mul_one]
  · rw [bellGain_eq, bellGain_eq]
    have e1 : band.freq * k / band.freq = k := by field_simp
    have e2 : band.freq / k / band.freq = k⁻¹ := by field_simp; ring
    rw [e1, e2, Real.log_inv, neg_div, neg_sq]

/-- C3 at a concrete band: 1 kHz, +6 dB, `q = 1`, sampled an octave away. -/
theorem bell_curve_gaussian_witness :
    bellGain ⟨1000, 6, 1, ⟨0, 0⟩, 1⟩ 1000 = 6
    ∧ |bellGain ⟨1000, 6, 1, ⟨0, 0⟩, 1⟩ 500| ≤ |(6 : ℝ)|
    ∧ bellGain ⟨1000, 6, 1, ⟨0, 0⟩, 1⟩ (1000 * 2) = bellGain ⟨1000, 6, 1, ⟨0, 0⟩, 1⟩ (1000 / 2) :=
  have h := bell_curve_gaussian ⟨1000, 6, 1, ⟨0, 0⟩, 1⟩ 500 2
    (by norm_num) (by norm_num) (by norm_num)
  ⟨h.2.1, h.2.2.1, h.2.2.2.2⟩

/-! ## Claims on the theme selector -/

/-- C4: the combo index `main` shows is 1 for `selectedTheme = 5`, 2 for 6, 3 for 7 and 0
for every other integer; and for every combo index `i` in `{0, 1, 2, 3}`, storing the theme
chosen for `i` and recomputing the combo index yields `i` again. -/
theorem theme_index_round_trip :
    uiThemeIndex 5 = 1 ∧ uiThemeIndex 6 = 2 ∧ uiThemeIndex 7 = 3
    ∧ (∀ selectedTheme : Int, selectedTheme ≠ 5 → selectedTheme ≠ 6 → selectedTheme ≠ 7 →
        uiThemeIndex selectedTheme = 0)
    ∧ (∀ i : Int, i = 0 ∨ i = 1 ∨ i = 2 ∨ i = 3 → uiThemeIndex (themeOfIndex i) = i) := by
  refine ⟨rfl, rfl, rfl, ?_, ?_⟩
  · intro t h5 h6 h7
    simp only [uiThemeIndex, if_neg h5, if_neg h6, if_neg h7]
  · intro i hi
    rcases hi with h | h | h | h <;> subst h <;> rfl

/-- C4 at concrete inputs: theme 0 shows entry 0, and entry 2 survives the round trip. -/
theorem theme_index_round_trip_witness :
    uiThemeIndex 0 = 0 ∧ uiThemeIndex (themeOfIndex 2) = 2 :=
  ⟨theme_index_round_trip.2.2.2.1 0 (by decide) (by decide) (by decide),
    theme_index_round_trip.2.2.2.2 2 (by decide)⟩

/-! ## Claims on the themes -/

theorem pushN_length {α : Type} (gen : Rng → α × Rng) (n : Nat) (xs : List α) (rng : Rng) :
    (pushN gen n xs rng).1.length = xs.length + n := by
  induction n generalizing xs rng with
  | zero => rfl
  | succ n ih =>
    rw [pushN, ih]
    simp only [List.length_append, List.length_singleton]
    omega

/-- C5: whatever the state before, `initializeTheme` leaves exactly 20 fish and no stars,
moons or popups when `selectedTheme` is 5; no stars, moons, fish or popups when it is 6
or 7; and exactly 100 stars and 3 moons and no fish or popups for every other value. -/
theorem initializeTheme_populates_one_theme (selectedTheme : Int) (seeded : Rng)
    (s : GraphicalParametricEQ) :
    (selectedTheme = 5 →
      (initializeTheme selectedTheme seeded s).fish.length = 20
      ∧ (initializeTheme selectedTheme seeded s).stars = []
      ∧ (initializeTheme selectedTheme seeded s).moons = []
      ∧ (initializeTheme selectedTheme seeded s).popups = [])
    ∧ (selectedTheme = 6 ∨ selectedTheme = 7 →
      (initializeTheme selectedTheme seeded s).stars = []
      ∧ (initializeTheme selectedTheme seeded s).moons = []
      ∧ (initializeTheme selectedTheme seeded s).fish = []
      ∧ (initializeTheme selectedTheme seeded s).popups = [])
    ∧ (selectedTheme ≠ 5 → selectedTheme ≠ 6 → selectedTheme ≠ 7 →
      (initializeTheme selectedTheme seeded s).stars.length = 100
      ∧ (initializeTheme selectedTheme seeded s).moons.length = 3
      ∧ (initializeTheme selectedTheme seeded s).fish = []
      ∧ (initializeTheme selectedTheme seeded s).popups = []) := by
  refine ⟨?_, ?_, ?_⟩
  · intro h
    simp only [initializeTheme, if_pos h, pushN_length, numFish, List.length_nil, zero_add,
      and_self]
  · intro h
    have h5 : selectedTheme ≠ 5 := by omega
    simp only [initializeTheme, if_neg h5, if_pos h, and_self]
  · intro h5 h6 h7
    have h67 : ¬(selectedTheme = 6 ∨ selectedTheme = 7) := by omega
    simp only [initializeTheme, if_neg h5, if_neg h67, pushN_length, numStars,
      List.length_nil, zero_add, and_self]

/-- C5 at a concrete state that holds a stale popup and a stale fish. -/
theorem initializeTheme_populates_one_theme_witness :
    (initializeTheme 5 ⟨fun _ => 0, 0⟩
        ⟨[], [], -1, 100, [], [], [], [⟨⟨0, 0⟩, 1, 0, 0, 1, ⟨0, 0, 0, 0⟩⟩], [⟨⟨0, 0⟩, 1, 0⟩],
          ⟨fun _ => 0, 0⟩, -1, 0⟩).fish.length = 20
    ∧ (initializeTheme 6 ⟨fun _ => 0, 0⟩
        ⟨[], [], -1, 100, [], [], [], [⟨⟨0, 0⟩, 1, 0, 0, 1, ⟨0, 0, 0, 0⟩⟩], [⟨⟨0, 0⟩, 1, 0⟩],
          ⟨fun _ => 0, 0⟩, -1, 0⟩).popups = []
    ∧ (initializeTheme 0 ⟨fun _ => 0, 0⟩
        ⟨[], [], -1, 100, [], [], [], [⟨⟨0, 0⟩, 1, 0, 0, 1, ⟨0, 0, 0, 0⟩⟩], [⟨⟨0, 0⟩, 1, 0⟩],
          ⟨fun _ => 0, 0⟩, -1, 0⟩).stars.length = 100 :=
  ⟨((initializeTheme_populates_one_theme 5 _ _).1 rfl).1,
    ((initializeTheme_populates_one_theme 6 _ _).2.1 (Or.inl rfl)).2.2.2,
    ((initializeTheme_populates_one_theme 0 _ _).2.2 (by decide) (by decide) (by decide)).1⟩

theorem agePopups_invariant (deltaTime : ℝ) (ps : List PopupText)
    (h : ∀ p ∈ ps, 0 ≤ p.time) (hd : 0 ≤ deltaTime) :
    ∀ p ∈ agePopups deltaTime ps, 0 ≤ p.time ∧ p.time ≤ 1 ∧ p.alpha = 1 - p.time := by
  induction ps with
  | nil => intro p hp; simp [agePopups] at hp
  | cons a as ih =>
    have ha : 0 ≤ a.time := h a (List.mem_cons_self _ _)
    have has : ∀ p ∈ as, 0 ≤ p.time := fun p hp => h p (List.mem_cons_of_mem _ hp)
    intro p hp
    rw [agePopups] at hp
    split_ifs at hp with hgt
    · exact ih has p hp
    · rcases List.mem_cons.mp hp with e | e
      · subst e
        refine ⟨?_, not_lt.mp hgt, ?_⟩
        · simp only [agePopup]; linarith
        · simp only [agePopup, div_one]
      · exact ih has p e

theorem agePopups_time_le (deltaTime : ℝ) (ps : List PopupText) :
    ∀ p ∈ agePopups deltaTime ps, p.time ≤ 1 := by
  induction ps with
  | nil => intro p hp; simp [agePopups] at hp
  | cons a as ih =>
    intro p hp
    rw [agePopups] at hp
    split_ifs at hp with hgt
    · exact ih p hp
    · rcases List.mem_cons.mp hp with e | e
      · subst e; exact not_lt.mp hgt
      · exact ih p e

theorem agePopups_length (deltaTime : ℝ) (ps : List PopupText) :
    (agePopups deltaTime ps).length ≤ ps.length := by
  induction ps with
  | nil => simp [agePopups]
  | cons a as ih =>
    rw [agePopups]
    split_ifs
    · simp only [List.length_cons]; omega
    · simp only [List.length_cons]; omega

theorem updateTheme_popups (selectedTheme : Int) (deltaTime : ℝ) (s : GraphicalParametricEQ)
    (h : selectedTheme = 6 ∨ selectedTheme = 7) :
    (updateTheme selectedTheme deltaTime s).popups = agePopups deltaTime s.popups
    ∨ ∃ pos, (updateTheme selectedTheme deltaTime s).popups
        = agePopups deltaTime (s.popups ++ [⟨pos, 1, 0⟩]) := by
  have h5 : selectedTheme ≠ 5 := by omega
  simp only [updateTheme, if_neg h5, if_pos h]
  by_cases ht : s.popupTimer + deltaTime ≥ 1
  · right; simp only [if_pos ht]; exact ⟨_, rfl⟩
  · left; simp only [if_neg ht]

theorem updateTheme_popup_invariant (selectedTheme : Int) (deltaTime : ℝ)
    (s : GraphicalParametricEQ) (h : selectedTheme = 6 ∨ selectedTheme = 7)
    (hd : 0 ≤ deltaTime) (hs : ∀ p ∈ s.popups, 0 ≤ p.time) :
    ∀ p ∈ (updateTheme selectedTheme deltaTime s).popups,
      0 ≤ p.time ∧ p.time ≤ 1 ∧ p.alpha = 1 - p.time := by
  rcases updateTheme_popups selectedTheme deltaTime s h with e | ⟨pos, e⟩
  · rw [e]; exact agePopups_invariant _ _ hs hd
  · rw [e]
    apply agePopups_invariant _ _ _ hd
    intro p hp
    rcases List.mem_append.mp hp with hp | hp
    · exact hs p hp
    · rw [List.mem_singleton] at hp; subst hp; exact le_refl _

theorem updateThemeMany_popup_invariant (calls : List (Int × ℝ))
    (hc : ∀ c ∈ calls, (c.1 = 6 ∨ c.1 = 7) ∧ 0 ≤ c.2) (s : GraphicalParametricEQ)
    (hs : ∀ p ∈ s.popups, 0 ≤ p.time ∧ p.time ≤ 1 ∧ p.alpha = 1 - p.time) :
    ∀ p ∈ (updateThemeMany calls s).popups,
      0 ≤ p.time ∧ p.time ≤ 1 ∧ p.alpha = 1 - p.time := by
  induction calls generalizing s with
  | nil => exact hs
  | cons c cs ih =>
    rw [updateThemeMany]
    apply ih (fun d hd => hc d (List.mem_cons_of_mem _ hd))
    obtain ⟨h67, h0⟩ := hc c (List.mem_cons_self _ _)
    exact updateTheme_popup_invariant c.1 c.2 s h67 h0 (fun p hp => (hs p hp).1)

theorem popupAlphaByte_range (p : PopupText) (h0 : 0 ≤ p.alpha) (h1 : p.alpha ≤ 1) :
    0 ≤ popupAlphaByte p ∧ popupAlphaByte p ≤ 255 := by
  have hn : 0 ≤ p.alpha * 255 := by positivity
  simp only [popupAlphaByte, intOfFloat, if_pos hn]
  constructor
  · exact Int.floor_nonneg.mpr hn
  · have hle : p.alpha * 255 ≤ ((255 : Int) : ℝ) := by push_cast; linarith
    have := Int.floor_le_floor hle
    rwa [Int.floor_intCast] at this

theorem updateTheme_popups_length (selectedTheme : Int) (deltaTime : ℝ)
    (s : GraphicalParametricEQ) (h : selectedTheme = 6 ∨ selectedTheme = 7) :
    (updateTheme selectedTheme deltaTime s).popups.length ≤ s.popups.length + 1 := by
  rcases updateTheme_popups selectedTheme deltaTime s h with e | ⟨pos, e⟩
  · rw [e]; exact (agePopups_length _ _).trans (Nat.le_succ _)
  · rw [e]
    refine (agePopups_length _ _).trans ?_
    simp only [List.length_append, List.length_singleton, le_refl]

theorem updateTheme_popups_time_le (selectedTheme : Int) (deltaTime : ℝ)
    (s : GraphicalParametricEQ) (h : selectedTheme = 6 ∨ selectedTheme = 7) :
    ∀ p ∈ (updateTheme selectedTheme deltaTime s).popups, p.time ≤ 1 := by
  rcases updateTheme_popups selectedTheme deltaTime s h with e | ⟨pos, e⟩
  · rw [e]; exact agePopups_time_le _ _
  · rw [e]; exact agePopups_time_le _ _

/-- C10: start from an empty popup list and make any sequence of `updateTheme` calls, each
with `selectedTheme` 6 or 7 and `deltaTime >= 0`.  Every popup then in the list has
`0 <= time <= 1` and `alpha = 1 - time`, hence `alpha` in `[0, 1]`, and the alpha argument
`(int)(alpha * 255)` that `drawPopups` computes for it lies in `[0, 255]`.  Moreover, from
any state, one such call lengthens the popup list by at most one and leaves no popup whose
time exceeds 1. -/
theorem popup_invariant (calls : List (Int × ℝ)) (s : GraphicalParametricEQ)
    (canvasPos : ImVec2) (theme : Int)
    (hc : ∀ c ∈ calls, (c.1 = 6 ∨ c.1 = 7) ∧ 0 ≤ c.2) (hs : s.popups = []) :
    (∀ p ∈ (updateThemeMany calls s).popups,
        (0 ≤ p.time ∧ p.time ≤ 1) ∧ p.alpha = 1 - p.time ∧ (0 ≤ p.alpha ∧ p.alpha ≤ 1)
        ∧ (0 ≤ popupAlphaByte p ∧ popupAlphaByte p ≤ 255))
    ∧ (∀ d ∈ drawPopups theme canvasPos (updateThemeMany calls s).popups,
        0 ≤ d.2.1 ∧ d.2.1 ≤ 255)
    ∧ (∀ (selectedTheme : Int) (deltaTime : ℝ) (t : GraphicalParametricEQ),
        selectedTheme = 6 ∨ selectedTheme = 7 →
        (updateTheme selectedTheme deltaTime t).popups.length ≤ t.popups.length + 1
        ∧ ∀ p ∈ (updateTheme selectedTheme deltaTime t).popups, p.time ≤ 1) := by
  have inv := updateThemeMany_popup_invariant calls hc s (by rw [hs]; intro p hp; cases hp)
  have all : ∀ p ∈ (updateThemeMany calls s).popups,
      (0 ≤ p.time ∧ p.time ≤ 1) ∧ p.alpha = 1 - p.time ∧ (0 ≤ p.alpha ∧ p.alpha ≤ 1)
      ∧ (0 ≤ popupAlphaByte p ∧ popupAlphaByte p ≤ 255) := by
    intro p hp
    obtain ⟨h0, h1, ha⟩ := inv p hp
    have a0 : 0 ≤ p.alpha := by rw [ha]; linarith
    have a1 : p.alpha ≤ 1 := by rw [ha]; linarith
    exact ⟨⟨h0, h1⟩, ha, ⟨a0, a1⟩, popupAlphaByte_range p a0 a1⟩
  refine ⟨all, ?_, ?_⟩
  · intro d hd
    simp only [drawPopups, List.mem_map] at hd
    obtain ⟨p, hp, rfl⟩ := hd
    exact (all p hp).2.2.2
  · intro selectedTheme deltaTime t h
    exact ⟨updateTheme_popups_length _ _ _ h, updateTheme_popups_time_le _ _ _ h⟩

/-- C10 on two calls of one second each in theme 6: the second call finds the popup of
the first at `time = 1` and erases it, leaving the popup it adds itself. -/
theorem popup_invariant_witness :
    (updateThemeMany [(6, 1), (6, 1)]
        ⟨[], [], -1, 100, [], [], [], [], [], ⟨fun _ => 0, 0⟩, 6, 0⟩).popups.length = 1
    ∧ ∀ p ∈ (updateThemeMany [(6, 1), (6, 1)]
        ⟨[], [], -1, 100, [], [], [], [], [], ⟨fun _ => 0, 0⟩, 6, 0⟩).popups,
        (0 ≤ p.time ∧ p.time ≤ 1) ∧ p.alpha = 1 - p.time ∧ (0 ≤ p.alpha ∧ p.alpha ≤ 1)
        ∧ (0 ≤ popupAlphaByte p ∧ popupAlphaByte p ≤ 255) :=
  ⟨by norm_num [updateThemeMany, updateTheme, agePopups, agePopup, dist],
    (popup_invariant [(6, 1), (6, 1)]
      ⟨[], [], -1, 100, [], [], [], [], [], ⟨fun _ => 0, 0⟩, 6, 0⟩ ⟨0, 0⟩ 6
      (by
        intro c hc
        simp only [List.mem_cons, List.mem_singleton, List.not_mem_nil, or_false, or_self] at hc
        subst hc
        exact ⟨Or.inl rfl, by norm_num⟩)
      rfl).1⟩

/-! ## Claims on the polyline of `drawBellCurve` -/

theorem freqOffset_eq (xNorm : ℝ) : freqOffset xNorm = (10 : ℝ) ^ (xNorm * 3) * 20 := by
  simp only [freqOffset, log10f_ratio]
  simp only [powf, minFreq]

theorem freqOffset_range (xNorm : ℝ) (h0 : 0 ≤ xNorm) (h1 : xNorm ≤ 1) :
    20 ≤ freqOffset xNorm ∧ freqOffset xNorm ≤ 20000 := by
  rw [freqOffset_eq]
  have l : (1 : ℝ) ≤ (10 : ℝ) ^ (xNorm * 3) :=
    Real.one_le_rpow (by norm_num) (by linarith)
  have u : (10 : ℝ) ^ (xNorm * 3) ≤ (10 : ℝ) ^ (3 : ℝ) :=
    Real.rpow_le_rpow_of_exponent_le (by norm_num) (by linarith)
  have e : (10 : ℝ) ^ (3 : ℝ) = 1000 := by norm_num
  constructor <;> linarith

theorem bellPoint_range (canvasPos : ImVec2) (band : EqBand) (xNorm : ℝ) (h0 : 0 ≤ xNorm)
    (h1 : xNorm ≤ 1) :
    (canvasPos.x + 10 ≤ (bellPoint canvasPos band xNorm).x
      ∧ (bellPoint canvasPos band xNorm).x ≤ canvasPos.x + 790)
    ∧ (canvasPos.y + 10 ≤ (bellPoint canvasPos band xNorm).y
      ∧ (bellPoint canvasPos band xNorm).y ≤ canvasPos.y + 390) := by
  simp only [bellPoint, graphSize]
  have c0 := clamp_ge ((bellGain band (freqOffset xNorm) - minGain) / (maxGain - minGain)) 0 1
    (by norm_num)
  have c1 := clamp_le ((bellGain band (freqOffset xNorm) - minGain) / (maxGain - minGain)) 0 1
    (by norm_num)
  refine ⟨⟨?_, ?_⟩, ?_, ?_⟩ <;> nlinarith

/-- C6 as stated fails at `curvePoints = 1`: the value passes the guard
`curvePoints <= 0`, the divisor `curvePoints - 1` of `xNorm` is zero, and the one point
handed to `AddPolyline` is not a pair of numbers. -/
theorem bell_curve_single_point_undefined :
    ¬((1 : Int) ≤ 0)
    ∧ (((1 : Int) - 1 : Int) : ℝ) = 0
    ∧ xNormAt 1 0 = none
    ∧ drawBellCurve false 1 ⟨0, 0⟩ ⟨1000, 6, 1, ⟨0, 0⟩, 1⟩ = [none] := by
  refine ⟨by decide, by norm_num, by simp [xNormAt], ?_⟩
  simp [drawBellCurve, xNormAt]

/-- C6, amended: for every `curvePoints >= 2`, every band with `freq > 0` and any `gain`
and `q`, and every sample index `i < curvePoints`, the polyline of `drawBellCurve` has
`curvePoints` points, the divisor `curvePoints - 1` of `xNorm` is not zero, `xNorm` lies in
`[0, 1]`, the sampled frequency `20 * 10^(xNorm * log10(1000))` lies in `[20, 20000]`, and
point `i` is a pair of numbers inside `[canvasPos.x + 10, canvasPos.x + 790] x
[canvasPos.y + 10, canvasPos.y + 390]`; the first sample sits at 20 Hz on the left edge, the
last at 20 kHz on the right edge. -/
theorem bell_curve_points_in_graph (curvePoints : Int) (i : Nat) (canvasPos : ImVec2)
    (band : EqBand) (h2 : 2 ≤ curvePoints) (hi : (i : Int) < curvePoints)
    (_hfreq : 0 < band.freq) :
    ((curvePoints - 1 : Int) : ℝ) ≠ 0
    ∧ (drawBellCurve false curvePoints canvasPos band).length = curvePoints.toNat
    ∧ ∃ xNorm : ℝ, xNormAt curvePoints i = some xNorm
      ∧ xNorm = (i : ℝ) / ((curvePoints - 1 : Int) : ℝ)
      ∧ (drawBellCurve false curvePoints canvasPos band)[i]?
          = some (some (bellPoint canvasPos band xNorm))
      ∧ (0 ≤ xNorm ∧ xNorm ≤ 1)
      ∧ freqOffset xNorm = 20 * (10 : ℝ) ^ (xNorm * log10f 1000)
      ∧ (20 ≤ freqOffset xNorm ∧ freqOffset xNorm ≤ 20000)
      ∧ ((canvasPos.x + 10 ≤ (bellPoint canvasPos band xNorm).x
          ∧ (bellPoint canvasPos band xNorm).x ≤ canvasPos.x + 790)
        ∧ (canvasPos.y + 10 ≤ (bellPoint canvasPos band xNorm).y
          ∧ (bellPoint canvasPos band xNorm).y ≤ canvasPos.y + 390))
      ∧ (i = 0 → freqOffset xNorm = 20
          ∧ (bellPoint canvasPos band xNorm).x = canvasPos.x + 10)
      ∧ ((i : Int) = curvePoints - 1 → freqOffset xNorm = 20000
          ∧ (bellPoint canvasPos band xNorm).x = canvasPos.x + 790) := by
  have hpos : (0 : ℝ) < ((curvePoints - 1 : Int) : ℝ) := by
    have : (0 : Int) < curvePoints - 1 := by omega
    exact_mod_cast this
  have hne : ((curvePoints - 1 : Int) : ℝ) ≠ 0 := hpos.ne'
  have hle : (i : ℝ) ≤ ((curvePoints - 1 : Int) : ℝ) := by
    have : (i : Int) ≤ curvePoints - 1 := by omega
    exact_mod_cast this
  have x0 : 0 ≤ (i : ℝ) / ((curvePoints - 1 : Int) : ℝ) :=
    div_nonneg (Nat.cast_nonneg i) hpos.le
  have x1 : (i : ℝ) / ((curvePoints - 1 : Int) : ℝ) ≤ 1 := (div_le_one hpos).mpr hle
  have hg : ¬(curvePoints ≤ 0 ∨ false = true) := by simp; omega
  have h1000 : log10f 1000 = 3 := by
    have := log10f_ratio; simp only [maxFreq, minFreq] at this; norm_num at this; exact this
  refine ⟨hne, ?_, (i : ℝ) / ((curvePoints - 1 : Int) : ℝ), ?_, rfl, ?_, ⟨x0, x1⟩, ?_,
    freqOffset_range _ x0 x1, bellPoint_range _ _ _ x0 x1, ?_, ?_⟩
  · simp only [drawBellCurve, if_neg hg, List.length_map, List.length_range]
  · simp only [xNormAt, if_neg hne]
  · have hin : i < curvePoints.toNat := by omega
    simp only [drawBellCurve, if_neg hg, List.getElem?_map,
      List.getElem?_range hin, Option.map_some', xNormAt, if_neg hne]
  · rw [freqOffset_eq, h1000, mul_comm]
  · intro h
    subst h
    rw [freqOffset_eq]
    simp [bellPoint, graphSize]
  · intro h
    have e : (i : ℝ) = ((curvePoints - 1 : Int) : ℝ) := by exact_mod_cast h
    rw [e, div_self hne, freqOffset_eq]
    constructor
    · norm_num
    · simp only [bellPoint, graphSize]; ring

/-- C6, amended, at the shipped `curvePoints = 100`: the last sample, index 99, of the
1 kHz, +6 dB band is a pair of numbers at 20 kHz on the right edge of a canvas at the
origin. -/
theorem bell_curve_points_in_graph_witness :
    (2 : Int) ≤ 100
    ∧ (drawBellCurve false 100 ⟨0, 0⟩ ⟨1000, 6, 1, ⟨0, 0⟩, 1⟩).length = 100
    ∧ ∃ xNorm : ℝ, xNormAt 100 99 = some xNorm
      ∧ (drawBellCurve false 100 ⟨0, 0⟩ ⟨1000, 6, 1, ⟨0, 0⟩, 1⟩)[99]?
          = some (some (bellPoint ⟨0, 0⟩ ⟨1000, 6, 1, ⟨0, 0⟩, 1⟩ xNorm))
      ∧ freqOffset xNorm = 20000
      ∧ (bellPoint ⟨0, 0⟩ ⟨1000, 6, 1, ⟨0, 0⟩, 1⟩ xNorm).x = (0 : ℝ) + 790 := by
  obtain ⟨_, hlen, xNorm, hx, _, hp, _, _, _, _, _, hlast⟩ :=
    bell_curve_points_in_graph 100 99 ⟨0, 0⟩ ⟨1000, 6, 1, ⟨0, 0⟩, 1⟩
      (by decide) (by decide) (by norm_num)
  exact ⟨by decide, hlen, xNorm, hx, hp, (hlast (by decide)).1, (hlast (by decide)).2⟩

/-! ## Claims on dragging and deleting -/

theorem intOfSize_of_lt (n : Nat) (h : n < 2147483648) : intOfSize n = (n : Int) := by
  unfold intOfSize
  split_ifs <;> omega

theorem toNat_lt_of_lt_intOfSize (i : Int) (n : Nat) (h0 : 0 ≤ i) (h : i < intOfSize n) :
    i.toNat < n := by
  unfold intOfSize at h
  split_ifs at h <;> omega

theorem dragStep_defined (inp : MouseInput) (s : GraphicalParametricEQ) :
    dragStep inp s = some s
    ∨ (0 ≤ s.draggedBandIndex ∧ s.draggedBandIndex.toNat < s.bands.length
        ∧ s.draggedBandIndex < intOfSize s.bands.length ∧ inp.dragging0 = true
        ∧ dragStep inp s
          = some { s with bands := s.bands.modify (dragBand inp) s.draggedBandIndex.toNat }) := by
  unfold dragStep
  split_ifs with h
  · right
    obtain ⟨h0, hlt, hd⟩ := h
    have hb := toNat_lt_of_lt_intOfSize _ _ h0 hlt
    refine ⟨h0, hb, hlt, hd, ?_⟩
    simp only [modifyAt, if_pos (And.intro h0 hb), Option.map_some']
  · left; rfl

theorem deleteStep_defined (inp : MouseInput) (s : GraphicalParametricEQ) :
    deleteStep inp s = some s
    ∨ (0 ≤ s.draggedBandIndex ∧ s.draggedBandIndex.toNat < s.bands.length
        ∧ s.draggedBandIndex < intOfSize s.bands.length ∧ inp.clicked1 = true
        ∧ deleteStep inp s
          = some { s with bands := updatePositions (s.bands.eraseIdx s.draggedBandIndex.toNat)
                          draggedBandIndex := -1 }) := by
  unfold deleteStep
  split_ifs with h
  · right
    obtain ⟨h0, hlt, hd⟩ := h
    have hb := toNat_lt_of_lt_intOfSize _ _ h0 hlt
    refine ⟨h0, hb, hlt, hd, ?_⟩
    simp only [eraseAt, if_pos (And.intro h0 hb), Option.map_some']
  · left; rfl

/-- C7: for every band list that an `int` can index, every `draggedBandIndex` with
`0 <= draggedBandIndex < bands.size()` and every mouse position, the drag step of `Draw`
with the left button dragging keeps the number of bands, leaves every other band and the
rest of the widget unchanged, leaves the dragged band's `q` unchanged, and sets its `pos` to
the clamped mouse position, its `freq` and `gain` to the values mapped from that position
and its `freqKHz` to `freq / 1000`. -/
theorem drag_changes_only_dragged_band (inp : MouseInput) (s : GraphicalParametricEQ)
    (h0 : 0 ≤ s.draggedBandIndex) (hlt : s.draggedBandIndex < (s.bands.length : Int))
    (hsz : s.bands.length < 2147483648) (hdrag : inp.dragging0 = true) :
    ∃ (s' : GraphicalParametricEQ) (b b' : EqBand),
      dragStep inp s = some s'
      ∧ s' = { s with bands := s'.bands }
      ∧ s'.bands.length = s.bands.length
      ∧ (∀ j : Nat, j ≠ s.draggedBandIndex.toNat → s'.bands[j]? = s.bands[j]?)
      ∧ s.bands[s.draggedBandIndex.toNat]? = some b
      ∧ s'.bands[s.draggedBandIndex.toNat]? = some b'
      ∧ b'.q = b.q
      ∧ b'.pos = ⟨clamp (inp.mousePos.x - inp.canvasPos.x) 10 790,
                  clamp (inp.mousePos.y - inp.canvasPos.y) 10 390⟩
      ∧ b'.freq = freqOfX graphSize (clamp (inp.mousePos.x - inp.canvasPos.x) 10 790)
      ∧ b'.gain = gainOfY graphSize (clamp (inp.mousePos.y - inp.canvasPos.y) 10 390)
      ∧ b'.freqKHz = b'.freq / 1000 := by
  have hb : s.draggedBandIndex.toNat < s.bands.length := by omega
  have hguard : s.draggedBandIndex ≥ 0 ∧ s.draggedBandIndex < intOfSize s.bands.length
      ∧ inp.dragging0 = true := ⟨h0, by rw [intOfSize_of_lt _ hsz]; exact hlt, hdrag⟩
  have h790 : graphSize.x - 10 = 790 := by simp only [graphSize]; norm_num
  have h390 : graphSize.y - 10 = 390 := by simp only [graphSize]; norm_num
  refine ⟨{ s with bands := s.bands.modify (dragBand inp) s.draggedBandIndex.toNat },
    s.bands[s.draggedBandIndex.toNat], dragBand inp s.bands[s.draggedBandIndex.toNat],
    ?_, rfl, ?_, ?_, ?_, ?_, rfl, ?_, ?_, ?_, rfl⟩
  · simp only [dragStep, if_pos hguard, modifyAt, if_pos (And.intro h0 hb), Option.map_some']
  · simp only [List.length_modify]
  · intro j hj
    simp only [List.getElem?_modify_ne _ _ (Ne.symm hj)]
  · exact List.getElem?_eq_getElem hb
  · simp only [List.getElem?_modify_eq, List.getElem?_eq_getElem hb]
    rfl
  · simp only [dragBand, mouseX, mouseY, h790, h390]
  · simp only [dragBand, mouseX, h790]
  · simp only [dragBand, mouseY, h390]

/-- C7 at a concrete state: two bands, the second one dragged to `(400, 200)`. -/
theorem drag_changes_only_dragged_band_witness :
    ∃ s' : GraphicalParametricEQ,
      dragStep ⟨true, fun _ _ => false, false, false, true, false, ⟨400, 200⟩, ⟨0, 0⟩⟩
        ⟨[⟨100, 0, 1, ⟨0, 0⟩, 0.1⟩, ⟨250, 0, 2, ⟨0, 0⟩, 0.25⟩], [], 1, 100, [], [], [], [], [],
          ⟨fun _ => 0, 0⟩, 5, 0⟩ = some s'
      ∧ s'.bands.length = 2
      ∧ s'.bands[0]? = some ⟨100, 0, 1, ⟨0, 0⟩, 0.1⟩
      ∧ (s'.bands[1]?.map fun b => b.q) = some 2 := by
  obtain ⟨s', b, b', h1, _, h3, h4, h5, h6, h7, _⟩ :=
    drag_changes_only_dragged_band
      ⟨true, fun _ _ => false, false, false, true, false, ⟨400, 200⟩, ⟨0, 0⟩⟩
      ⟨[⟨100, 0, 1, ⟨0, 0⟩, 0.1⟩, ⟨250, 0, 2, ⟨0, 0⟩, 0.25⟩], [], 1, 100, [], [], [], [], [],
        ⟨fun _ => 0, 0⟩, 5, 0⟩
      (by decide) (by decide) (by decide) rfl
  refine ⟨s', h1, h3, ?_, ?_⟩
  · rw [h4 0 (by decide)]; rfl
  · have e : b = ⟨250, 0, 2, ⟨0, 0⟩, 0.25⟩ := by
      have : (some (⟨250, 0, 2, ⟨0, 0⟩, 0.25⟩ : EqBand)) = some b := h5
      exact (Option.some.inj this).symm
    have i1 : (1 : Int).toNat = 1 := rfl
    rw [i1] at h6
    rw [h6, Option.map_some', h7, e]

theorem releaseStep_bands (inp : MouseInput) (s : GraphicalParametricEQ) :
    (releaseStep inp s).bands = s.bands := by
  unfold releaseStep; split_ifs <;> rfl

theorem updatePositions_key (bands : List EqBand) :
    (updatePositions bands).map EqBand.key = bands.map EqBand.key := by
  simp only [updatePositions, List.map_map]
  rfl

/-- C9 as stated fails: with one band, `draggedBandIndex = 0` (in bounds), the left button
released and the right button clicked in the same frame, the drag and delete steps of `Draw`
remove nothing, and neither does the whole mouse handling of that frame; line 279 resets
the index before line 280 tests it. -/
theorem right_click_with_release_removes_nothing :
    ((0 : Int) ≤ 0 ∧ (0 : Int) < (([⟨1000, 0, 1, ⟨400, 200⟩, 1⟩] : List EqBand).length : Int))
    ∧ ∃ s' : GraphicalParametricEQ,
      dragReleaseDelete ⟨true, fun _ _ => false, false, true, false, true, ⟨0, 0⟩, ⟨0, 0⟩⟩
        ⟨[⟨1000, 0, 1, ⟨400, 200⟩, 1⟩], [], 0, 100, [], [], [], [], [], ⟨fun _ => 0, 0⟩, 5, 0⟩
        = some s'
      ∧ mouseSteps ⟨true, fun _ _ => false, false, true, false, true, ⟨0, 0⟩, ⟨0, 0⟩⟩
        ⟨[⟨1000, 0, 1, ⟨400, 200⟩, 1⟩], [], 0, 100, [], [], [], [], [], ⟨fun _ => 0, 0⟩, 5, 0⟩
        = some s'
      ∧ s'.bands = [⟨1000, 0, 1, ⟨400, 200⟩, 1⟩]
      ∧ s'.draggedBandIndex = -1
      ∧ ¬(s'.bands.length + 1 = ([⟨1000, 0, 1, ⟨400, 200⟩, 1⟩] : List EqBand).length) := by
  refine ⟨by decide, ⟨[⟨1000, 0, 1, ⟨400, 200⟩, 1⟩], [], -1, 100, [], [], [], [], [],
    ⟨fun _ => 0, 0⟩, 5, 0⟩, ?_, ?_, rfl, rfl, by decide⟩
  · simp [dragReleaseDelete, dragStep, releaseStep, deleteStep]
  · simp [mouseSteps, selectStep, addStep, dragReleaseDelete, dragStep, releaseStep, deleteStep]

/-- C9, amended: for every state and every combination of mouse inputs the drag step and
the right-click-delete step of `Draw` are defined, so they index or erase `bands` only inside
the vector.  When `0 <= draggedBandIndex < bands.size()` (a size an `int` can hold), the left
button is not released in this frame and the right button is clicked, exactly the band at
`draggedBandIndex` is removed: the size decreases by one, the other bands keep their order
and their `freq`, `gain` and `q`, and `draggedBandIndex` becomes -1.  When the index is out of
bounds the steps leave the band list unchanged, and so they do when the mouse is not dragging
and the left button is released or the right button is not clicked; a release of the left
button always leaves the size unchanged and the index at -1. -/
theorem drag_and_delete_in_bounds (inp : MouseInput) (s : GraphicalParametricEQ) :
    ∃ s1 s' : GraphicalParametricEQ,
      dragStep inp s = some s1
      ∧ deleteStep inp (releaseStep inp s1) = some s'
      ∧ dragReleaseDelete inp s = some s'
      ∧ (0 ≤ s.draggedBandIndex → s.draggedBandIndex < (s.bands.length : Int) →
          s.bands.length < 2147483648 → inp.released0 = false → inp.clicked1 = true →
          s'.bands = updatePositions (s.bands.eraseIdx s.draggedBandIndex.toNat)
          ∧ s'.bands.length + 1 = s.bands.length
          ∧ s'.bands.map EqBand.key
            = (s.bands.eraseIdx s.draggedBandIndex.toNat).map EqBand.key
          ∧ s'.draggedBandIndex = -1)
      ∧ (¬(0 ≤ s.draggedBandIndex ∧ s.draggedBandIndex < (s.bands.length : Int)) →
          s'.bands = s.bands)
      ∧ (inp.dragging0 = false → inp.released0 = true ∨ inp.clicked1 = false →
          s'.bands = s.bands)
      ∧ (inp.released0 = true →
          s'.bands.length = s.bands.length ∧ s'.draggedBandIndex = -1) := by
  -- the drag step
  have hd := dragStep_defined inp s
  obtain ⟨s1, hs1, hidx1, hlen1, hbands1, herase1⟩ :
      ∃ s1, dragStep inp s = some s1 ∧ s1.draggedBandIndex = s.draggedBandIndex
        ∧ s1.bands.length = s.bands.length
        ∧ ((¬(0 ≤ s.draggedBandIndex ∧ s.draggedBandIndex.toNat < s.bands.length)
            ∨ inp.dragging0 = false) → s1.bands = s.bands)
        ∧ s1.bands.eraseIdx s.draggedBandIndex.toNat
          = s.bands.eraseIdx s.draggedBandIndex.toNat := by
    rcases hd with h | ⟨h0, hb, _, hdr, h⟩
    · exact ⟨s, h, rfl, rfl, fun _ => rfl, rfl⟩
    · refine ⟨_, h, rfl, by simp only [List.length_modify], ?_, ?_⟩
      · intro hn
        rcases hn with hn | hn
        · exact absurd ⟨h0, hb⟩ hn
        · rw [hdr] at hn; cases hn
      · exact List.eraseIdx_modify_of_eq _ _ _
  -- the release and delete steps
  have hr : (releaseStep inp s1).bands = s1.bands := releaseStep_bands inp s1
  have hdel := deleteStep_defined inp (releaseStep inp s1)
  rcases hdel with h | ⟨g0, gb, _, gc, h⟩
  · -- nothing is erased
    refine ⟨s1, releaseStep inp s1, hs1, h, ?_, ?_, ?_, ?_, ?_⟩
    · rw [dragReleaseDelete, hs1]
      exact h
    · intro h0 hlt hsz hrel hclick
      exfalso
      have hb : s.draggedBandIndex.toNat < s.bands.length := by omega
      have hrs : releaseStep inp s1 = s1 := by
        simp only [releaseStep, hrel, Bool.false_eq_true, if_false]
      have hguard : (releaseStep inp s1).draggedBandIndex ≥ 0
          ∧ (releaseStep inp s1).draggedBandIndex < intOfSize (releaseStep inp s1).bands.length
          ∧ inp.clicked1 = true := by
        rw [hrs, hidx1, hlen1, intOfSize_of_lt _ hsz]
        exact ⟨h0, hlt, hclick⟩
      have hb1 : (releaseStep inp s1).draggedBandIndex.toNat
          < (releaseStep inp s1).bands.length := by
        rw [hrs, hidx1, hlen1]; exact hb
      have hg0 : 0 ≤ (releaseStep inp s1).draggedBandIndex := hguard.1
      simp only [deleteStep, if_pos hguard, eraseAt, if_pos (And.intro hg0 hb1),
        Option.map_some', Option.some.injEq] at h
      have hl := congrArg (fun t : GraphicalParametricEQ => t.bands.length) h
      simp only [updatePositions, List.length_map, List.length_eraseIdx, if_pos hb1] at hl
      omega
    · intro hn
      rw [hr]
      apply hbands1
      left
      intro hc
      exact hn ⟨hc.1, by omega⟩
    · intro hdr _
      rw [hr]
      exact hbands1 (Or.inr hdr)
    · intro hrel
      refine ⟨by rw [hr, hlen1], ?_⟩
      simp only [releaseStep, hrel, if_true]
  · -- the band at the index is erased
    have hrel : inp.released0 = false := by
      cases hq : inp.released0 with
      | false => rfl
      | true =>
        have : (releaseStep inp s1).draggedBandIndex = -1 := by
          simp only [releaseStep, hq, if_true]
        omega
    have hrs : releaseStep inp s1 = s1 := by
      simp only [releaseStep, hrel, Bool.false_eq_true, if_false]
    rw [hrs] at h g0 gb
    rw [hidx1] at h g0 gb
    rw [hlen1] at gb
    refine ⟨s1, { s1 with bands := updatePositions (s1.bands.eraseIdx s.draggedBandIndex.toNat)
                          draggedBandIndex := -1 }, hs1, by rw [hrs]; exact h, ?_, ?_, ?_, ?_, ?_⟩
    · rw [dragReleaseDelete, hs1]
      show deleteStep inp (releaseStep inp s1) = _
      rw [hrs]; exact h
    · intro _ _ _ _ _
      refine ⟨?_, ?_, ?_, rfl⟩
      · show updatePositions (s1.bands.eraseIdx s.draggedBandIndex.toNat) = _
        rw [herase1]
      · show (updatePositions (s1.bands.eraseIdx s.draggedBandIndex.toNat)).length + 1 = _
        rw [herase1]
        simp only [updatePositions, List.length_map, List.length_eraseIdx, if_pos gb]
        omega
      · show (updatePositions (s1.bands.eraseIdx s.draggedBandIndex.toNat)).map EqBand.key = _
        rw [herase1, updatePositions_key]
    · intro hn
      exact absurd ⟨g0, by omega⟩ hn
    · intro _ hor
      rcases hor with hr1 | hcl
      · rw [hrel] at hr1; cases hr1
      · rw [gc] at hcl; cases hcl
    · intro hr1
      rw [hrel] at hr1; cases hr1

/-- C9, amended, at a concrete state: two bands, the first one held, a right click with the
left button still down; the first band goes and the second one keeps its values. -/
theorem drag_and_delete_in_bounds_witness :
    ∃ s' : GraphicalParametricEQ,
      dragReleaseDelete ⟨true, fun _ _ => false, false, true, true, false, ⟨400, 200⟩, ⟨0, 0⟩⟩
        ⟨[⟨100, 0, 1, ⟨0, 0⟩, 0.1⟩, ⟨250, 3, 2, ⟨0, 0⟩, 0.25⟩], [], 0, 100, [], [], [], [], [],
          ⟨fun _ => 0, 0⟩, 5, 0⟩ = some s'
      ∧ s'.bands.length + 1 = 2
      ∧ s'.bands.map EqBand.key = [(250, 3, 2)]
      ∧ s'.draggedBandIndex = -1 := by
  obtain ⟨_, s', _, _, h3, h4, _⟩ :=
    drag_and_delete_in_bounds
      ⟨true, fun _ _ => false, false, true, true, false, ⟨400, 200⟩, ⟨0, 0⟩⟩
      ⟨[⟨100, 0, 1, ⟨0, 0⟩, 0.1⟩, ⟨250, 3, 2, ⟨0, 0⟩, 0.25⟩], [], 0, 100, [], [], [], [], [],
        ⟨fun _ => 0, 0⟩, 5, 0⟩
  obtain ⟨_, a2, a3, a4⟩ := h4 (by decide) (by decide) (by decide) rfl rfl
  exact ⟨s', h3, a2, a3, a4⟩

end EqUi

end
